import Mathlib

/-!
Shallow embedding of the FairwindsOps/helm-release-pruner core
(`pkg/pruner/pruner.go`, `pkg/pruner/options.go`, `cmd/pruner/main.go`).

Times and durations are modelled as `Int` nanoseconds, matching Go's
`time.Time`/`time.Duration` (int64 nanoseconds; none of the verified
properties depend on 64-bit overflow).  Regex filters are modelled as
opaque matchers `Option (String → Bool)` (`nil` regex pointer = `none`),
matching the code's use of a compiled regex only through `MatchString`.
Cluster I/O (Helm list/uninstall, Kubernetes namespace list/delete) is
modelled as a state-passing interpreter over a `Cluster` value that
records the effect trace of every issued call; per-item failures of
delete/check calls are supplied by oracles.  The interpreter models runs
with a live (uncancelled) context; cancellation is modelled at the
orchestrator level (`runCycleWithBackoff`), where the claims about it live.
-/

namespace HelmPruner

/-- One nanosecond-denominated second (`time.Second`). -/
def second : Int := 1000000000

/-- `time.Minute`. -/
def minute : Int := 60 * second

/-- A Helm release as used by the pruner: `Name`, `Namespace` and
`Info.LastDeployed` (the only `Info` field the decision logic reads),
from `helm.sh/helm/v4/pkg/release/v1.Release`. -/
structure Release where
  name : String
  nspace : String
  lastDeployed : Int
  deriving DecidableEq, Repr

/-- `pruner.Options` (options.go).  Regex filters are opaque matchers;
`none` corresponds to a nil `*regexp.Regexp`.  Durations are `Int`
nanoseconds and counts are `Int` (Go `int`). -/
structure Options where
  interval : Int := 0
  maxReleasesToKeep : Int := 0
  olderThan : Int := 0
  releaseFilter : Option (String → Bool) := none
  namespaceFilter : Option (String → Bool) := none
  releaseExclude : Option (String → Bool) := none
  namespaceExclude : Option (String → Bool) := none
  preserveNamespace : Bool := false
  cleanupOrphanNamespaces : Bool := false
  orphanNamespaceFilter : Option (String → Bool) := none
  orphanNamespaceExclude : Option (String → Bool) := none
  deleteRateLimit : Int := 0
  additionalSystemNamespaces : List String := []
  dryRun : Bool := false
  debug : Bool := false

/-- `defaultSystemNamespaces` (pruner.go): namespaces that should never be
deleted. -/
def defaultSystemNamespaces : List String :=
  ["default", "kube-system", "kube-public", "kube-node-lease"]

/-- The `systemNamespaces` membership map built by `New` (pruner.go):
defaults plus `Options.AdditionalSystemNamespaces`. -/
def mkSystemNamespaces (additional : List String) : String → Bool :=
  fun ns => defaultSystemNamespaces.contains ns || additional.contains ns

/-- Cluster state visible to the pruner: existing namespaces and the
releases living in them.  Fetched fresh each cycle; mutated only by the
delete calls the interpreter issues. -/
structure Cluster where
  namespaces : List String
  releases : List Release
  deriving Repr

/-- Per-item failure oracles for the external delete/query calls:
`relDeleteFails name ns` = the Helm uninstall call returns an error,
`nsDeleteFails ns` = the Kubernetes namespace delete returns an error,
`nsCheckFails ns` = `namespaceHasReleases` returns an error for `ns`. -/
structure Oracles where
  relDeleteFails : String → String → Bool
  nsDeleteFails : String → Bool
  nsCheckFails : String → Bool

/-- The all-calls-succeed oracle. -/
def noFailures : Oracles :=
  { relDeleteFails := fun _ _ => false
    nsDeleteFails := fun _ => false
    nsCheckFails := fun _ => false }

/-- Observable effects of one cycle: issued API calls, dry-run intents,
rate-limit sleeps, and the start of the orphan scan. -/
inductive Effect where
  | uninstallRelease (name nspace : String)
  | deleteNamespace (nspace : String)
  | wouldDeleteRelease (name nspace : String)
  | wouldDeleteNamespace (nspace : String)
  | rateLimitSleep
  | orphanScan
  deriving DecidableEq, Repr

/-- True for effects that mutate cluster state (issued delete calls). -/
def Effect.isMutation : Effect → Bool
  | .uninstallRelease _ _ => true
  | .deleteNamespace _ => true
  | _ => false

/-- `namespaceHasReleases` (pruner.go): whether the Helm list for the
namespace returns any release (all statuses). -/
def namespaceHasReleases (c : Cluster) (ns : String) : Bool :=
  c.releases.any (fun r => r.nspace == ns)

/-- Removing a release from the cluster, the effect of a successful
Helm uninstall of `(name, ns)`. -/
def removeRelease (c : Cluster) (name ns : String) : Cluster :=
  { c with releases := c.releases.filter (fun r => !(r.name == name && r.nspace == ns)) }

/-- Removing a namespace from the cluster (successful namespace delete). -/
def removeNamespace (c : Cluster) (ns : String) : Cluster :=
  { c with namespaces := c.namespaces.filter (fun n => !(n == ns)) }

/-- The comparator of `selectReleasesToDelete`'s `sort.Slice` call,
as a total preorder: `a` sorts no later than `b` when `a` was deployed
at or after `b` (newest first). -/
def deployedAfterEq (a b : Release) : Prop := b.lastDeployed ≤ a.lastDeployed

instance : DecidableRel deployedAfterEq :=
  fun a b => (inferInstance : Decidable (b.lastDeployed ≤ a.lastDeployed))

instance : IsTotal Release deployedAfterEq :=
  ⟨fun a b => (le_total b.lastDeployed a.lastDeployed).imp id id⟩

instance : IsTrans Release deployedAfterEq :=
  ⟨fun _ _ _ hab hbc => le_trans hbc hab⟩

/-- The `sort.Slice(sorted, ...LastDeployed.After...)` step of
`selectReleasesToDelete`: sort by last-deployed time, newest first. -/
def sortByDeployedDesc (releases : List Release) : List Release :=
  releases.insertionSort deployedAfterEq

/-- `filterReleases` (pruner.go): keep a release iff its namespace matches
the namespace include filter (if set), does not match the namespace
exclude filter (if set), and its name likewise passes the release
include/exclude filters. -/
def filterReleases (opts : Options) (releases : List Release) : List Release :=
  releases.filter (fun rel =>
    (match opts.namespaceFilter with | some f => f rel.nspace | none => true) &&
    (match opts.namespaceExclude with | some f => !f rel.nspace | none => true) &&
    (match opts.releaseFilter with | some f => f rel.name | none => true) &&
    (match opts.releaseExclude with | some f => !f rel.name | none => true))

/-- The count-based marking of `selectReleasesToDelete` (its `toDeleteMap`
content after the first `if`): when a positive `MaxReleasesToKeep` is
configured and exceeded, the releases beyond that position in newest-first
order; otherwise nothing. -/
def countRuleSelection (opts : Options) (releases : List Release) : List Release :=
  if 0 < opts.maxReleasesToKeep ∧
      opts.maxReleasesToKeep < ((sortByDeployedDesc releases).length : Int) then
    (sortByDeployedDesc releases).drop opts.maxReleasesToKeep.toNat
  else []

/-- `selectReleasesToDelete` (pruner.go): sort newest-first; if a positive
`MaxReleasesToKeep` is exceeded, mark everything beyond that position
(`countRuleSelection`); then, if a positive `OlderThan` is set, mark
every not-yet-marked release whose age `now - lastDeployed` strictly
exceeds it.  The marked map keyed by release is returned as a
duplicate-free list. -/
def selectReleasesToDelete (opts : Options) (now : Int) (releases : List Release) :
    List Release :=
  if releases.isEmpty then []
  else
    countRuleSelection opts releases ++
      (if 0 < opts.olderThan then
        releases.filter (fun r =>
          !((countRuleSelection opts releases).contains r) &&
          decide (opts.olderThan < now - r.lastDeployed))
      else [])

/-- The age rule of `selectReleasesToDelete` in isolation: the releases
strictly older than the threshold. -/
def ageRuleSelection (opts : Options) (now : Int) (releases : List Release) :
    List Release :=
  if 0 < opts.olderThan then
    releases.filter (fun r => decide (opts.olderThan < now - r.lastDeployed))
  else []

/-- `maxBackoff` (pruner.go): 5 minutes. -/
def maxBackoff : Int := 5 * minute

/-- `maxBackoffShift` (pruner.go): maximum bit shift to prevent overflow. -/
def maxBackoffShift : Int := 10

/-- `CalculateBackoff` (pruner.go): 0 for at most one consecutive failure,
otherwise `2^(failures-1)` seconds with the shift capped at
`maxBackoffShift`, the result capped at `maxBackoff`. -/
def CalculateBackoff (consecutiveFailures : Int) : Int :=
  if consecutiveFailures ≤ 1 then 0
  else
    let shift : Int :=
      if consecutiveFailures - 1 > maxBackoffShift then maxBackoffShift
      else consecutiveFailures - 1
    let backoff : Int := 2 ^ shift.toNat * second
    if backoff > maxBackoff then maxBackoff else backoff

/-- The release-deletion loop of `pruneReleases` (pruner.go): for each
release to delete, on dry-run log the intent; otherwise issue the
uninstall call, skip to the next release if it fails, and after a
successful deletion apply the rate-limit sleep when `DeleteRateLimit > 0`
and the release is not at the last position (`i < len(toDelete)-1`).
`total` is `len(toDelete)` and `i` the current index. -/
def deleteReleasesLoop (opts : Options) (orc : Oracles) (total i : Nat)
    (toDelete : List Release) (c : Cluster) : Cluster × List Effect :=
  match toDelete with
  | [] => (c, [])
  | rel :: rest =>
    if opts.dryRun then
      let next := deleteReleasesLoop opts orc total (i + 1) rest c
      (next.1, .wouldDeleteRelease rel.name rel.nspace :: next.2)
    else if orc.relDeleteFails rel.name rel.nspace then
      let next := deleteReleasesLoop opts orc total (i + 1) rest c
      (next.1, .uninstallRelease rel.name rel.nspace :: next.2)
    else
      let c1 := removeRelease c rel.name rel.nspace
      let sleep : List Effect :=
        if 0 < opts.deleteRateLimit ∧ i < total - 1 then [.rateLimitSleep] else []
      let next := deleteReleasesLoop opts orc total (i + 1) rest c1
      (next.1, .uninstallRelease rel.name rel.nspace :: (sleep ++ next.2))

/-- `deleteNamespaceIfEmpty` (pruner.go): never touch a system namespace;
skip (returning the check error to the caller, which only logs it) if the
release query fails; skip if the namespace still has releases; on dry-run
only log the intent; otherwise issue the namespace delete call. -/
def deleteNamespaceIfEmpty (opts : Options) (sys : String → Bool) (orc : Oracles)
    (c : Cluster) (ns : String) : Cluster × List Effect :=
  if sys ns then (c, [])
  else if orc.nsCheckFails ns then (c, [])
  else if namespaceHasReleases c ns then (c, [])
  else if opts.dryRun then (c, [.wouldDeleteNamespace ns])
  else if orc.nsDeleteFails ns then (c, [.deleteNamespace ns])
  else (removeNamespace c ns, [.deleteNamespace ns])

/-- The post-deletion namespace pass of `pruneReleases`: run
`deleteNamespaceIfEmpty` over every affected namespace (errors are logged
and the pass continues). -/
def cleanupAffectedNamespaces (opts : Options) (sys : String → Bool) (orc : Oracles) :
    List String → Cluster → Cluster × List Effect
  | [], c => (c, [])
  | ns :: rest, c =>
    let step := deleteNamespaceIfEmpty opts sys orc c ns
    let next := cleanupAffectedNamespaces opts sys orc rest step.1
    (next.1, step.2 ++ next.2)

/-- `pruneReleases` (pruner.go): list all releases, filter, select the
ones to delete; if none, done.  Otherwise run the deletion loop (which
records each release's namespace as affected) and, unless
`PreserveNamespace` is set, check every affected namespace for emptiness.
Go iterates the `affectedNamespaces` map in unspecified order; the model
uses first-occurrence order, and every property proved about this pass is
order-independent. -/
def pruneReleases (opts : Options) (sys : String → Bool) (orc : Oracles)
    (now : Int) (c : Cluster) : Cluster × List Effect :=
  let candidates := filterReleases opts c.releases
  let toDelete := selectReleasesToDelete opts now candidates
  if toDelete.isEmpty then (c, [])
  else
    let loop := deleteReleasesLoop opts orc toDelete.length 0 toDelete c
    if opts.preserveNamespace then loop
    else
      let affected := (toDelete.map (fun r => r.nspace)).dedup
      let pass := cleanupAffectedNamespaces opts sys orc affected loop.1
      (pass.1, loop.2 ++ pass.2)

/-- The first pass of `cleanupOrphanNamespaces` (pruner.go): a namespace
is an orphan candidate when it is not a system namespace, matches the
orphan include filter (if set), does not match the orphan exclude filter
(if set), its release query does not fail (a failure is logged and the
namespace skipped), and it has no releases. -/
def orphanCandidates (opts : Options) (sys : String → Bool) (orc : Oracles)
    (c : Cluster) : List String :=
  c.namespaces.filter (fun ns =>
    !(sys ns) &&
    (match opts.orphanNamespaceFilter with | some f => f ns | none => true) &&
    (match opts.orphanNamespaceExclude with | some f => !f ns | none => true) &&
    !(orc.nsCheckFails ns) &&
    !(namespaceHasReleases c ns))

/-- The orphan-deletion loop of `cleanupOrphanNamespaces` (pruner.go):
same structure as the release-deletion loop, over namespace names. -/
def deleteOrphansLoop (opts : Options) (orc : Oracles) (total i : Nat)
    (orphans : List String) (c : Cluster) : Cluster × List Effect :=
  match orphans with
  | [] => (c, [])
  | ns :: rest =>
    if opts.dryRun then
      let next := deleteOrphansLoop opts orc total (i + 1) rest c
      (next.1, .wouldDeleteNamespace ns :: next.2)
    else if orc.nsDeleteFails ns then
      let next := deleteOrphansLoop opts orc total (i + 1) rest c
      (next.1, .deleteNamespace ns :: next.2)
    else
      let c1 := removeNamespace c ns
      let sleep : List Effect :=
        if 0 < opts.deleteRateLimit ∧ i < total - 1 then [.rateLimitSleep] else []
      let next := deleteOrphansLoop opts orc total (i + 1) rest c1
      (next.1, .deleteNamespace ns :: (sleep ++ next.2))

/-- `cleanupOrphanNamespaces` (pruner.go): list all namespaces, build the
orphan list, then delete each orphan with rate limiting.  The leading
`orphanScan` effect marks that the scan ran at all. -/
def cleanupOrphanNamespaces (opts : Options) (sys : String → Bool) (orc : Oracles)
    (c : Cluster) : Cluster × List Effect :=
  let orphans := orphanCandidates opts sys orc c
  if orphans.isEmpty then (c, [.orphanScan])
  else
    let loop := deleteOrphansLoop opts orc orphans.length 0 orphans c
    (loop.1, .orphanScan :: loop.2)

/-- `hasReleasePruningFilters` (pruner.go). -/
def hasReleasePruningFilters (opts : Options) : Bool :=
  decide (0 < opts.olderThan) || decide (0 < opts.maxReleasesToKeep) ||
  opts.releaseFilter.isSome || opts.namespaceFilter.isSome ||
  opts.releaseExclude.isSome || opts.namespaceExclude.isSome

/-- `RunOnce` (pruner.go) on a live context: the release-pruning phase
when any pruning filter is configured, then the orphan phase when
enabled. -/
def runOnce (opts : Options) (sys : String → Bool) (orc : Oracles)
    (now : Int) (c : Cluster) : Cluster × List Effect :=
  let phase1 :=
    if hasReleasePruningFilters opts then pruneReleases opts sys orc now c
    else (c, [])
  let phase2 :=
    if opts.cleanupOrphanNamespaces then
      cleanupOrphanNamespaces opts sys orc phase1.1
    else (phase1.1, [])
  (phase2.1, phase1.2 ++ phase2.2)

/-- The startup validation in `newRootCmd`'s `PreRunE` (cmd/pruner/main.go):
when orphan cleanup is requested without an orphan include filter, it is
forcibly disabled (with a warning on stderr). -/
def validateOrphanConfig (opts : Options) : Options :=
  if opts.cleanupOrphanNamespaces ∧ opts.orphanNamespaceFilter.isNone then
    { opts with cleanupOrphanNamespaces := false }
  else opts

/-- The error `RunOnce` surfaces to `runCycleWithBackoff`: either a
cancellation (`context.Canceled` propagated from a ctx check or an
interrupted sleep) or a phase-level error. -/
inductive RunError where
  | cancelled
  | phaseFailed
  deriving DecidableEq, Repr

/-- Input of one `runCycleWithBackoff` invocation: the result of
`RunOnce` (`none` = success) and whether the context is cancelled when
the backoff `select` runs. -/
structure CycleInput where
  result : Option RunError
  ctxCancelled : Bool
  deriving DecidableEq, Repr

/-- The daemon counters of `Pruner` (pruner.go): `ready`, `initialized`
and `consecutiveFailures`. -/
structure DaemonState where
  ready : Bool
  initialized : Bool
  consecutiveFailures : Nat
  deriving DecidableEq, Repr

/-- The zero value of the `Pruner` counters, as built by `New`. -/
def initialDaemonState : DaemonState :=
  { ready := false, initialized := false, consecutiveFailures := 0 }

/-- Observable events of `runCycleWithBackoff`: the `prune cycle failed`
error log and the backoff sleep (which the `select` skips when the
context is already cancelled). -/
inductive CycleEvent where
  | errorLogged
  | backoffSlept (d : Int)
  deriving DecidableEq, Repr

/-- `runCycleWithBackoff` (pruner.go): `initialized` is stored true via
`defer` on every path.  On any non-nil error from `RunOnce` — the code
does not inspect the error — increment `consecutiveFailures`, log the
error, and sleep for `CalculateBackoff` (if positive) unless the context
is already cancelled.  On success reset the counter and store `ready`. -/
def runCycleWithBackoff (s : DaemonState) (inp : CycleInput) :
    DaemonState × List CycleEvent :=
  match inp.result with
  | some _ =>
    let failures := s.consecutiveFailures + 1
    let backoff := CalculateBackoff (failures : Int)
    let events :=
      CycleEvent.errorLogged ::
        (if 0 < backoff ∧ !inp.ctxCancelled then [CycleEvent.backoffSlept backoff] else [])
    ({ s with initialized := true, consecutiveFailures := failures }, events)
  | none =>
    ({ ready := true, initialized := true, consecutiveFailures := 0 }, [])

/-- Folding `runCycleWithBackoff` over a list of cycle inputs, from a
given daemon state: the states reachable by `RunDaemon`'s loop. -/
def runCycles (s : DaemonState) : List CycleInput → DaemonState
  | [] => s
  | inp :: rest => runCycles (runCycleWithBackoff s inp).1 rest

/-- Number of rate-limit sleeps in a trace. -/
def countSleeps (tr : List Effect) : Nat :=
  tr.countP (fun e => match e with | .rateLimitSleep => true | _ => false)

/-- Number of release-uninstall calls (deletion attempts) in a trace. -/
def countUninstalls (tr : List Effect) : Nat :=
  tr.countP (fun e => match e with | .uninstallRelease _ _ => true | _ => false)

/-- Number of namespace-delete calls (deletion attempts) in a trace. -/
def countNsDeletes (tr : List Effect) : Nat :=
  tr.countP (fun e => match e with | .deleteNamespace _ => true | _ => false)

/-- The namespaces a trace selects for deletion: those of issued
namespace-delete calls and of dry-run would-delete intents. -/
def nsSelected (tr : List Effect) : List String :=
  tr.filterMap (fun e =>
    match e with
    | .deleteNamespace n => some n
    | .wouldDeleteNamespace n => some n
    | _ => none)

/-- True when an effect is a release-uninstall call. -/
def Effect.isUninstall : Effect → Bool
  | .uninstallRelease _ _ => true
  | _ => false

/-- True when an effect is a namespace-delete call. -/
def Effect.isNsDelete : Effect → Bool
  | .deleteNamespace _ => true
  | _ => false

/-! ## Lemmas about the orchestrator state machine -/

theorem runCycleWithBackoff_initialized (s : DaemonState) (inp : CycleInput) :
    (runCycleWithBackoff s inp).1.initialized = true := by
  rcases inp with ⟨r, cc⟩
  cases r <;> simp [runCycleWithBackoff]

theorem runCycles_initialized (inputs : List CycleInput) (s : DaemonState)
    (h : inputs ≠ []) : (runCycles s inputs).initialized = true := by
  induction inputs generalizing s with
  | nil => exact absurd rfl h
  | cons inp rest ih =>
    cases rest with
    | nil => simpa [runCycles] using runCycleWithBackoff_initialized s inp
    | cons b bs => exact ih _ (by simp)

theorem runCycles_ready (inputs : List CycleInput) (s : DaemonState) :
    (runCycles s inputs).ready = (s.ready || inputs.any (fun inp => inp.result.isNone)) := by
  induction inputs generalizing s with
  | nil => simp [runCycles]
  | cons inp rest ih =>
    rcases inp with ⟨r, cc⟩
    cases r with
    | none => simp [runCycles, runCycleWithBackoff, ih]
    | some e => simp [runCycles, runCycleWithBackoff, ih]

/-! ## Claim theorems: orchestrator -/

/-- C7: `CalculateBackoff` returns `min(2^(n-1) seconds, 5 minutes)` with
the exponent capped at 10 for counts of 2 and above; counts 1, 2, 3, 4
yield 0s, 2s, 4s, 8s; counts of 11 and above yield exactly 300 seconds;
a count of 1 or less yields zero backoff. -/
theorem claim_C7_backoff (n : Int) (h : 0 ≤ n) :
    (2 ≤ n →
      CalculateBackoff n =
        min (2 ^ (min (n - 1) maxBackoffShift).toNat * second) (5 * minute)) ∧
    CalculateBackoff 1 = 0 ∧
    CalculateBackoff 2 = 2 * second ∧
    CalculateBackoff 3 = 4 * second ∧
    CalculateBackoff 4 = 8 * second ∧
    (11 ≤ n → CalculateBackoff n = 300 * second) ∧
    (n ≤ 1 → CalculateBackoff n = 0) := by
  have hgen : ∀ m : Int, 2 ≤ m →
      CalculateBackoff m =
        min (2 ^ (min (m - 1) maxBackoffShift).toNat * second) (5 * minute) := by
    intro m hm
    unfold CalculateBackoff
    rw [if_neg (by omega)]
    have hsh : (if m - 1 > maxBackoffShift then maxBackoffShift else m - 1) =
        min (m - 1) maxBackoffShift := by
      unfold maxBackoffShift
      split <;> omega
    simp only [hsh]
    have hmb : maxBackoff = 5 * minute := rfl
    rw [hmb]
    rcases le_or_lt (2 ^ (min (m - 1) maxBackoffShift).toNat * second) (5 * minute) with hle | hlt
    · rw [if_neg (not_lt.mpr hle), min_eq_left hle]
    · rw [if_pos hlt, min_eq_right (le_of_lt hlt)]
  refine ⟨hgen n, by decide, by decide, by decide, by decide, ?_, ?_⟩
  · intro h11
    rw [hgen n (by omega)]
    have hmin : min (n - 1) maxBackoffShift = 10 := by
      unfold maxBackoffShift
      omega
    rw [hmin]
    have h10 : (10 : Int).toNat = 10 := rfl
    rw [h10]
    norm_num [second, minute]
  · intro h1
    unfold CalculateBackoff
    rw [if_pos h1]

/-- C7 witness: concrete evaluations at count 11. -/
theorem claim_C7_backoff_witness :
    CalculateBackoff 11 = 300 * second ∧ CalculateBackoff 2 = 2 * second := by
  have h := claim_C7_backoff 11 (by decide)
  exact ⟨h.2.2.2.2.2.1 (by decide), h.2.2.1⟩

/-- C1 counterexample: the claim as stated is false.  When `RunOnce`
returns the cancellation signal, `runCycleWithBackoff` does increment the
consecutive-failure counter and does log an error: at the initial daemon
state the counter goes from 0 to 1 and the `prune cycle failed` error log
is emitted. -/
theorem claim_C1_counterexample :
    ¬ ((runCycleWithBackoff initialDaemonState
          ⟨some RunError.cancelled, true⟩).1.consecutiveFailures =
        initialDaemonState.consecutiveFailures ∧
       CycleEvent.errorLogged ∉
        (runCycleWithBackoff initialDaemonState ⟨some RunError.cancelled, true⟩).2) := by
  decide

/-- C1 (amended): `runCycleWithBackoff` does not distinguish cancellation
from failure.  When `RunOnce` returns the cancellation signal it
increments the consecutive-failure counter and logs an error like any
other failure; the only cancellation-specific behaviour is that a
cancelled context makes the backoff `select` return immediately, so no
backoff sleep happens, and the daemon loop then stops via its own
`ctx.Done()` branch. -/
theorem claim_C1_cancellation_like_failure (s : DaemonState) (inp : CycleInput)
    (h : inp.result = some RunError.cancelled) :
    (runCycleWithBackoff s inp).1.consecutiveFailures = s.consecutiveFailures + 1 ∧
    CycleEvent.errorLogged ∈ (runCycleWithBackoff s inp).2 ∧
    (inp.ctxCancelled = true →
      ∀ d, CycleEvent.backoffSlept d ∉ (runCycleWithBackoff s inp).2) := by
  rcases inp with ⟨r, cc⟩
  obtain rfl : r = some RunError.cancelled := h
  refine ⟨by simp [runCycleWithBackoff], by simp [runCycleWithBackoff], ?_⟩
  intro hcc d
  subst hcc
  simp [runCycleWithBackoff]

/-- C1 witness: the amended claim at the initial daemon state. -/
theorem claim_C1_cancellation_like_failure_witness :
    (runCycleWithBackoff initialDaemonState
        ⟨some RunError.cancelled, true⟩).1.consecutiveFailures =
      initialDaemonState.consecutiveFailures + 1 ∧
    CycleEvent.errorLogged ∈
      (runCycleWithBackoff initialDaemonState ⟨some RunError.cancelled, true⟩).2 ∧
    ((⟨some RunError.cancelled, true⟩ : CycleInput).ctxCancelled = true →
      ∀ d, CycleEvent.backoffSlept d ∉
        (runCycleWithBackoff initialDaemonState ⟨some RunError.cancelled, true⟩).2) :=
  claim_C1_cancellation_like_failure initialDaemonState ⟨some RunError.cancelled, true⟩ rfl

/-- C10: after the first cycle attempt completes for any reason,
`Initialized()` is true (stored unconditionally via `defer`); `Ready()`
is true iff some cycle succeeded; and in every state reachable from the
initial one, `Ready()` implies `Initialized()`. -/
theorem claim_C10_ready_implies_initialized (inputs : List CycleInput)
    (h : inputs ≠ []) :
    (runCycles initialDaemonState inputs).initialized = true ∧
    ((runCycles initialDaemonState inputs).ready = true ↔
      ∃ inp ∈ inputs, inp.result = none) ∧
    (∀ inps : List CycleInput,
      (runCycles initialDaemonState inps).ready = true →
      (runCycles initialDaemonState inps).initialized = true) := by
  refine ⟨runCycles_initialized inputs _ h, ?_, ?_⟩
  · rw [runCycles_ready]
    simp [initialDaemonState, List.any_eq_true, Option.isNone_iff_eq_none]
  · intro inps hr
    cases inps with
    | nil =>
      rw [runCycles_ready] at hr
      simp [runCycles, initialDaemonState] at hr
    | cons a as => exact runCycles_initialized _ _ (by simp)

/-- C10 witness: one failed cycle, then one cancelled cycle, then one
successful cycle. -/
theorem claim_C10_ready_implies_initialized_witness :
    (runCycles initialDaemonState
        [⟨some RunError.phaseFailed, false⟩, ⟨some RunError.cancelled, true⟩,
         ⟨none, false⟩]).initialized = true ∧
    ((runCycles initialDaemonState
        [⟨some RunError.phaseFailed, false⟩, ⟨some RunError.cancelled, true⟩,
         ⟨none, false⟩]).ready = true ↔
      ∃ inp ∈ ([⟨some RunError.phaseFailed, false⟩, ⟨some RunError.cancelled, true⟩,
         ⟨none, false⟩] : List CycleInput), inp.result = none) ∧
    (∀ inps : List CycleInput,
      (runCycles initialDaemonState inps).ready = true →
      (runCycles initialDaemonState inps).initialized = true) :=
  claim_C10_ready_implies_initialized _ (by simp)

/-! ## Lemmas about the deletion selector -/

theorem sortByDeployedDesc_perm (l : List Release) :
    List.Perm (sortByDeployedDesc l) l :=
  List.perm_insertionSort deployedAfterEq l

theorem sortByDeployedDesc_sorted (l : List Release) :
    List.Sorted deployedAfterEq (sortByDeployedDesc l) :=
  List.sorted_insertionSort deployedAfterEq l

theorem sortByDeployedDesc_length (l : List Release) :
    (sortByDeployedDesc l).length = l.length :=
  (sortByDeployedDesc_perm l).length_eq

theorem countRuleSelection_nodup (opts : Options) (rels : List Release)
    (h : rels.Nodup) : (countRuleSelection opts rels).Nodup := by
  have hsorted : (sortByDeployedDesc rels).Nodup :=
    (sortByDeployedDesc_perm rels).nodup_iff.mpr h
  unfold countRuleSelection
  split
  · exact (List.drop_sublist _ _).nodup hsorted
  · exact List.nodup_nil

theorem countRuleSelection_subset (opts : Options) (rels : List Release)
    (r : Release) (hr : r ∈ countRuleSelection opts rels) : r ∈ rels := by
  unfold countRuleSelection at hr
  split at hr
  · exact (sortByDeployedDesc_perm rels).mem_iff.mp ((List.drop_sublist _ _).mem hr)
  · exact absurd hr (List.not_mem_nil r)

theorem select_count_only (opts : Options) (now : Int) (rels : List Release)
    (h : opts.olderThan ≤ 0) :
    selectReleasesToDelete opts now rels = countRuleSelection opts rels := by
  by_cases he : rels.isEmpty
  · obtain rfl : rels = [] := by simpa using he
    have hcr : countRuleSelection opts ([] : List Release) = [] := by
      unfold countRuleSelection
      rw [if_neg]
      rintro ⟨h1, hlen⟩
      rw [sortByDeployedDesc_length] at hlen
      simp at hlen
      omega
    simp [selectReleasesToDelete, hcr]
  · unfold selectReleasesToDelete
    rw [if_neg he, if_neg (by omega : ¬ 0 < opts.olderThan)]
    simp

theorem select_age_only (opts : Options) (now : Int) (rels : List Release)
    (h : opts.maxReleasesToKeep ≤ 0) :
    selectReleasesToDelete opts now rels = ageRuleSelection opts now rels := by
  have hc : countRuleSelection opts rels = [] := by
    unfold countRuleSelection
    rw [if_neg]
    rintro ⟨h1, _⟩; omega
  unfold selectReleasesToDelete ageRuleSelection
  by_cases he : rels.isEmpty
  · obtain rfl : rels = [] := by simpa using he
    simp
  · rw [if_neg he, hc]
    simp

theorem mem_select_iff (opts : Options) (now : Int) (rels : List Release) (r : Release) :
    r ∈ selectReleasesToDelete opts now rels ↔
      r ∈ countRuleSelection opts rels ∨ r ∈ ageRuleSelection opts now rels := by
  by_cases he : rels.isEmpty
  · obtain rfl : rels = [] := by simpa using he
    simp [selectReleasesToDelete, countRuleSelection, ageRuleSelection, sortByDeployedDesc]
  · unfold selectReleasesToDelete ageRuleSelection
    rw [if_neg he]
    simp only [List.mem_append]
    by_cases ho : 0 < opts.olderThan
    · rw [if_pos ho, if_pos ho]
      by_cases hc : r ∈ countRuleSelection opts rels
      · simp [hc]
      · simp [hc, List.mem_filter]
    · rw [if_neg ho, if_neg ho]

theorem select_nodup (opts : Options) (now : Int) (rels : List Release)
    (h : rels.Nodup) : (selectReleasesToDelete opts now rels).Nodup := by
  by_cases he : rels.isEmpty
  · obtain rfl : rels = [] := by simpa using he
    simp [selectReleasesToDelete]
  · unfold selectReleasesToDelete
    rw [if_neg he, List.nodup_append]
    refine ⟨countRuleSelection_nodup opts rels h, ?_, ?_⟩
    · split
      · exact h.filter _
      · exact List.nodup_nil
    · intro a ha hb
      split at hb
      · rw [List.mem_filter] at hb
        have hcond := hb.2
        simp only [Bool.and_eq_true, Bool.not_eq_true'] at hcond
        have hnc := hcond.1
        simp only [List.elem_eq_mem, decide_eq_false_iff_not] at hnc
        exact hnc ha
      · exact absurd hb (List.not_mem_nil a)

/-! ## Claim theorems: deletion selector -/

/-- C4: with only the count rule active (no age threshold), a keep-count
`K` with `0 < K < N` over `N` filtered releases selects exactly `N − K`
of them, all drawn from the input, and every selected release is no newer
than every kept one (the `K` most recently deployed are the ones kept);
`K ≥ N` selects none. -/
theorem claim_C4_keep_count (opts : Options) (now : Int) (rels : List Release)
    (ho : opts.olderThan ≤ 0) (hK : 0 < opts.maxReleasesToKeep) :
    (opts.maxReleasesToKeep < (rels.length : Int) →
      (selectReleasesToDelete opts now rels).length =
        rels.length - opts.maxReleasesToKeep.toNat ∧
      (∀ r ∈ selectReleasesToDelete opts now rels, r ∈ rels) ∧
      (∀ r ∈ selectReleasesToDelete opts now rels, ∀ s ∈ rels,
        s ∉ selectReleasesToDelete opts now rels →
        r.lastDeployed ≤ s.lastDeployed)) ∧
    ((rels.length : Int) ≤ opts.maxReleasesToKeep →
      selectReleasesToDelete opts now rels = []) := by
  rw [select_count_only opts now rels ho]
  constructor
  · intro hlt
    have hcond : 0 < opts.maxReleasesToKeep ∧
        opts.maxReleasesToKeep < ((sortByDeployedDesc rels).length : Int) := by
      refine ⟨hK, ?_⟩
      rw [sortByDeployedDesc_length]
      exact hlt
    have hsel : countRuleSelection opts rels =
        (sortByDeployedDesc rels).drop opts.maxReleasesToKeep.toNat := by
      unfold countRuleSelection
      rw [if_pos hcond]
    refine ⟨?_, ?_, ?_⟩
    · rw [hsel, List.length_drop, sortByDeployedDesc_length]
    · intro r hr
      rw [hsel] at hr
      exact (sortByDeployedDesc_perm rels).mem_iff.mp
        ((List.drop_sublist _ _).mem hr)
    · intro r hr s hs hns
      rw [hsel] at hr hns
      have hssorted : s ∈ sortByDeployedDesc rels :=
        (sortByDeployedDesc_perm rels).mem_iff.mpr hs
      have hsplit : (sortByDeployedDesc rels).take opts.maxReleasesToKeep.toNat ++
          (sortByDeployedDesc rels).drop opts.maxReleasesToKeep.toNat =
          sortByDeployedDesc rels :=
        List.take_append_drop _ _
      have hstake : s ∈ (sortByDeployedDesc rels).take opts.maxReleasesToKeep.toNat := by
        have hsm : s ∈ (sortByDeployedDesc rels).take opts.maxReleasesToKeep.toNat ++
            (sortByDeployedDesc rels).drop opts.maxReleasesToKeep.toNat := by
          rw [hsplit]; exact hssorted
        rcases List.mem_append.mp hsm with h1 | h2
        · exact h1
        · exact absurd h2 hns
      have hpair2 : List.Pairwise deployedAfterEq
          ((sortByDeployedDesc rels).take opts.maxReleasesToKeep.toNat ++
           (sortByDeployedDesc rels).drop opts.maxReleasesToKeep.toNat) := by
        rw [hsplit]
        exact sortByDeployedDesc_sorted rels
      exact (List.pairwise_append.mp hpair2).2.2 s hstake r hr
  · intro hge
    unfold countRuleSelection
    rw [if_neg]
    rintro ⟨_, hlen⟩
    rw [sortByDeployedDesc_length] at hlen
    omega

/-- C4 witness: three releases, keep-count 2, no age rule: exactly one
release (the oldest) is selected. -/
theorem claim_C4_keep_count_witness :
    (({ maxReleasesToKeep := 2 } : Options).maxReleasesToKeep <
        (([⟨"a", "ns", 30⟩, ⟨"b", "ns", 20⟩, ⟨"c", "ns", 10⟩] : List Release).length : Int) →
      (selectReleasesToDelete { maxReleasesToKeep := 2 } 100
          [⟨"a", "ns", 30⟩, ⟨"b", "ns", 20⟩, ⟨"c", "ns", 10⟩]).length =
        ([⟨"a", "ns", 30⟩, ⟨"b", "ns", 20⟩, ⟨"c", "ns", 10⟩] : List Release).length -
          ({ maxReleasesToKeep := 2 } : Options).maxReleasesToKeep.toNat ∧
      (∀ r ∈ selectReleasesToDelete { maxReleasesToKeep := 2 } 100
          [⟨"a", "ns", 30⟩, ⟨"b", "ns", 20⟩, ⟨"c", "ns", 10⟩],
        r ∈ ([⟨"a", "ns", 30⟩, ⟨"b", "ns", 20⟩, ⟨"c", "ns", 10⟩] : List Release)) ∧
      (∀ r ∈ selectReleasesToDelete { maxReleasesToKeep := 2 } 100
          [⟨"a", "ns", 30⟩, ⟨"b", "ns", 20⟩, ⟨"c", "ns", 10⟩],
        ∀ s ∈ ([⟨"a", "ns", 30⟩, ⟨"b", "ns", 20⟩, ⟨"c", "ns", 10⟩] : List Release),
        s ∉ selectReleasesToDelete { maxReleasesToKeep := 2 } 100
          [⟨"a", "ns", 30⟩, ⟨"b", "ns", 20⟩, ⟨"c", "ns", 10⟩] →
        r.lastDeployed ≤ s.lastDeployed)) ∧
    ((([⟨"a", "ns", 30⟩, ⟨"b", "ns", 20⟩, ⟨"c", "ns", 10⟩] : List Release).length : Int) ≤
        ({ maxReleasesToKeep := 2 } : Options).maxReleasesToKeep →
      selectReleasesToDelete { maxReleasesToKeep := 2 } 100
        [⟨"a", "ns", 30⟩, ⟨"b", "ns", 20⟩, ⟨"c", "ns", 10⟩] = []) :=
  claim_C4_keep_count { maxReleasesToKeep := 2 } 100
    [⟨"a", "ns", 30⟩, ⟨"b", "ns", 20⟩, ⟨"c", "ns", 10⟩] (by decide) (by decide)

/-- C5: with only the age rule active, a release is selected iff its age
`now − lastDeployed` is strictly greater than the threshold; a release
whose age equals the threshold exactly is not selected. -/
theorem claim_C5_age_rule (opts : Options) (now : Int) (rels : List Release)
    (r : Release) (hT : 0 < opts.olderThan) (hK : opts.maxReleasesToKeep ≤ 0) :
    (r ∈ selectReleasesToDelete opts now rels ↔
      r ∈ rels ∧ opts.olderThan < now - r.lastDeployed) ∧
    (now - r.lastDeployed = opts.olderThan →
      r ∉ selectReleasesToDelete opts now rels) := by
  have hmem : r ∈ selectReleasesToDelete opts now rels ↔
      r ∈ rels ∧ opts.olderThan < now - r.lastDeployed := by
    rw [select_age_only opts now rels hK]
    unfold ageRuleSelection
    rw [if_pos hT]
    simp [List.mem_filter]
  refine ⟨hmem, ?_⟩
  intro heq hr
  have := (hmem.mp hr).2
  omega

/-- C5 witness: threshold 10 at `now = 100`: a release deployed at 85
(age 15) is selected; a release deployed at 90 (age exactly 10) is not. -/
theorem claim_C5_age_rule_witness :
    ((⟨"old", "ns", 85⟩ : Release) ∈ selectReleasesToDelete { olderThan := 10 } 100
        [⟨"old", "ns", 85⟩, ⟨"edge", "ns", 90⟩] ↔
      (⟨"old", "ns", 85⟩ : Release) ∈
        ([⟨"old", "ns", 85⟩, ⟨"edge", "ns", 90⟩] : List Release) ∧
      ({ olderThan := 10 } : Options).olderThan <
        100 - (⟨"old", "ns", 85⟩ : Release).lastDeployed) ∧
    (100 - (⟨"edge", "ns", 90⟩ : Release).lastDeployed =
        ({ olderThan := 10 } : Options).olderThan →
      (⟨"edge", "ns", 90⟩ : Release) ∉ selectReleasesToDelete { olderThan := 10 } 100
        [⟨"old", "ns", 85⟩, ⟨"edge", "ns", 90⟩]) :=
  ⟨(claim_C5_age_rule { olderThan := 10 } 100
      [⟨"old", "ns", 85⟩, ⟨"edge", "ns", 90⟩] ⟨"old", "ns", 85⟩
      (by decide) (by decide)).1,
   (claim_C5_age_rule { olderThan := 10 } 100
      [⟨"old", "ns", 85⟩, ⟨"edge", "ns", 90⟩] ⟨"edge", "ns", 90⟩
      (by decide) (by decide)).2⟩

/-- C6: for any configuration, the selection is the set union of the
count rule's selection and the age rule's selection: membership is the
disjunction of the two rules, the output is duplicate-free (on
duplicate-free input), each rule's selection is contained in the result,
and empty input or no active rules yields an empty result. -/
theorem claim_C6_selection_union (opts : Options) (now : Int) (rels : List Release)
    (h : rels.Nodup) :
    (∀ r, r ∈ selectReleasesToDelete opts now rels ↔
      r ∈ countRuleSelection opts rels ∨ r ∈ ageRuleSelection opts now rels) ∧
    (selectReleasesToDelete opts now rels).Nodup ∧
    (∀ r ∈ countRuleSelection opts rels, r ∈ selectReleasesToDelete opts now rels) ∧
    (∀ r ∈ ageRuleSelection opts now rels, r ∈ selectReleasesToDelete opts now rels) ∧
    (rels = [] → selectReleasesToDelete opts now rels = []) ∧
    (opts.maxReleasesToKeep ≤ 0 → opts.olderThan ≤ 0 →
      selectReleasesToDelete opts now rels = []) := by
  refine ⟨mem_select_iff opts now rels, select_nodup opts now rels h, ?_, ?_, ?_, ?_⟩
  · intro r hr
    exact (mem_select_iff opts now rels r).mpr (Or.inl hr)
  · intro r hr
    exact (mem_select_iff opts now rels r).mpr (Or.inr hr)
  · rintro rfl
    rfl
  · intro hK hT
    rw [select_age_only opts now rels hK]
    unfold ageRuleSelection
    rw [if_neg (by omega)]

/-- C6 witness: keep-count 1 and age threshold 5 over three releases:
the result is the union of the two rules' selections, without
duplicates. -/
theorem claim_C6_selection_union_witness :
    (∀ r, r ∈ selectReleasesToDelete { maxReleasesToKeep := 1, olderThan := 5 } 100
        [⟨"a", "ns", 99⟩, ⟨"b", "ns", 50⟩, ⟨"c", "ns", 10⟩] ↔
      r ∈ countRuleSelection { maxReleasesToKeep := 1, olderThan := 5 }
        [⟨"a", "ns", 99⟩, ⟨"b", "ns", 50⟩, ⟨"c", "ns", 10⟩] ∨
      r ∈ ageRuleSelection { maxReleasesToKeep := 1, olderThan := 5 } 100
        [⟨"a", "ns", 99⟩, ⟨"b", "ns", 50⟩, ⟨"c", "ns", 10⟩]) ∧
    (selectReleasesToDelete { maxReleasesToKeep := 1, olderThan := 5 } 100
        [⟨"a", "ns", 99⟩, ⟨"b", "ns", 50⟩, ⟨"c", "ns", 10⟩]).Nodup ∧
    (∀ r ∈ countRuleSelection { maxReleasesToKeep := 1, olderThan := 5 }
        [⟨"a", "ns", 99⟩, ⟨"b", "ns", 50⟩, ⟨"c", "ns", 10⟩],
      r ∈ selectReleasesToDelete { maxReleasesToKeep := 1, olderThan := 5 } 100
        [⟨"a", "ns", 99⟩, ⟨"b", "ns", 50⟩, ⟨"c", "ns", 10⟩]) ∧
    (∀ r ∈ ageRuleSelection { maxReleasesToKeep := 1, olderThan := 5 } 100
        [⟨"a", "ns", 99⟩, ⟨"b", "ns", 50⟩, ⟨"c", "ns", 10⟩],
      r ∈ selectReleasesToDelete { maxReleasesToKeep := 1, olderThan := 5 } 100
        [⟨"a", "ns", 99⟩, ⟨"b", "ns", 50⟩, ⟨"c", "ns", 10⟩]) ∧
    (([⟨"a", "ns", 99⟩, ⟨"b", "ns", 50⟩, ⟨"c", "ns", 10⟩] : List Release) = [] →
      selectReleasesToDelete { maxReleasesToKeep := 1, olderThan := 5 } 100
        [⟨"a", "ns", 99⟩, ⟨"b", "ns", 50⟩, ⟨"c", "ns", 10⟩] = []) ∧
    (({ maxReleasesToKeep := 1, olderThan := 5 } : Options).maxReleasesToKeep ≤ 0 →
      ({ maxReleasesToKeep := 1, olderThan := 5 } : Options).olderThan ≤ 0 →
      selectReleasesToDelete { maxReleasesToKeep := 1, olderThan := 5 } 100
        [⟨"a", "ns", 99⟩, ⟨"b", "ns", 50⟩, ⟨"c", "ns", 10⟩] = []) :=
  claim_C6_selection_union { maxReleasesToKeep := 1, olderThan := 5 } 100
    [⟨"a", "ns", 99⟩, ⟨"b", "ns", 50⟩, ⟨"c", "ns", 10⟩] (by decide)

/-! ## Lemmas about the cycle interpreter -/

theorem mkSystemNamespaces_eq_true (additional : List String) (ns : String) :
    mkSystemNamespaces additional ns = true ↔
      ns ∈ defaultSystemNamespaces ∨ ns ∈ additional := by
  simp [mkSystemNamespaces]

theorem deleteReleasesLoop_effect_shape (opts : Options) (orc : Oracles) :
    ∀ (items : List Release) (total i : Nat) (c : Cluster) (e : Effect),
      e ∈ (deleteReleasesLoop opts orc total i items c).2 →
      (∃ n m, e = Effect.uninstallRelease n m) ∨ e = Effect.rateLimitSleep ∨
      (∃ n m, e = Effect.wouldDeleteRelease n m) := by
  intro items
  induction items with
  | nil =>
    intro total i c e he
    simp [deleteReleasesLoop] at he
  | cons x rest ih =>
    intro total i c e he
    unfold deleteReleasesLoop at he
    split at he
    · rcases List.mem_cons.mp he with rfl | hrest
      · exact Or.inr (Or.inr ⟨x.name, x.nspace, rfl⟩)
      · exact ih total (i + 1) c e hrest
    · split at he
      · rcases List.mem_cons.mp he with rfl | hrest
        · exact Or.inl ⟨x.name, x.nspace, rfl⟩
        · exact ih total (i + 1) c e hrest
      · rcases List.mem_cons.mp he with rfl | hrest
        · exact Or.inl ⟨x.name, x.nspace, rfl⟩
        · rcases List.mem_append.mp hrest with hsleep | hnext
          · split at hsleep
            · rcases List.mem_singleton.mp hsleep with rfl
              exact Or.inr (Or.inl rfl)
            · exact absurd hsleep (List.not_mem_nil e)
          · exact ih total (i + 1) _ e hnext

theorem deleteNamespaceIfEmpty_effect_shape (opts : Options) (sys : String → Bool)
    (orc : Oracles) (c : Cluster) (ns : String) (e : Effect)
    (he : e ∈ (deleteNamespaceIfEmpty opts sys orc c ns).2) :
    (e = Effect.deleteNamespace ns ∨ e = Effect.wouldDeleteNamespace ns) ∧
      sys ns = false := by
  unfold deleteNamespaceIfEmpty at he
  split at he
  · exact absurd he (List.not_mem_nil e)
  · rename_i hsys
    have hs : sys ns = false := by
      cases hv : sys ns
      · rfl
      · exact absurd hv hsys
    split at he
    · exact absurd he (List.not_mem_nil e)
    · split at he
      · exact absurd he (List.not_mem_nil e)
      · split at he
        · rcases List.mem_singleton.mp he with rfl
          exact ⟨Or.inr rfl, hs⟩
        · split at he
          · rcases List.mem_singleton.mp he with rfl
            exact ⟨Or.inl rfl, hs⟩
          · rcases List.mem_singleton.mp he with rfl
            exact ⟨Or.inl rfl, hs⟩

theorem cleanupAffectedNamespaces_effect_shape (opts : Options) (sys : String → Bool)
    (orc : Oracles) :
    ∀ (L : List String) (c : Cluster) (e : Effect),
      e ∈ (cleanupAffectedNamespaces opts sys orc L c).2 →
      ∃ ns, (e = Effect.deleteNamespace ns ∨ e = Effect.wouldDeleteNamespace ns) ∧
        sys ns = false := by
  intro L
  induction L with
  | nil =>
    intro c e he
    simp [cleanupAffectedNamespaces] at he
  | cons ns rest ih =>
    intro c e he
    unfold cleanupAffectedNamespaces at he
    rcases List.mem_append.mp he with hstep | hnext
    · exact ⟨ns, deleteNamespaceIfEmpty_effect_shape opts sys orc c ns e hstep⟩
    · exact ih _ e hnext

theorem orphanCandidates_not_system (opts : Options) (sys : String → Bool)
    (orc : Oracles) (c : Cluster) (ns : String)
    (h : ns ∈ orphanCandidates opts sys orc c) : sys ns = false := by
  unfold orphanCandidates at h
  rw [List.mem_filter] at h
  have := h.2
  simp only [Bool.and_eq_true, Bool.not_eq_true'] at this
  exact this.1.1.1.1

theorem deleteOrphansLoop_effect_shape (opts : Options) (orc : Oracles) :
    ∀ (items : List String) (total i : Nat) (c : Cluster) (e : Effect),
      e ∈ (deleteOrphansLoop opts orc total i items c).2 →
      e = Effect.rateLimitSleep ∨
      ∃ ns ∈ items, e = Effect.deleteNamespace ns ∨ e = Effect.wouldDeleteNamespace ns := by
  intro items
  induction items with
  | nil =>
    intro total i c e he
    simp [deleteOrphansLoop] at he
  | cons ns rest ih =>
    intro total i c e he
    unfold deleteOrphansLoop at he
    split at he
    · rcases List.mem_cons.mp he with rfl | hrest
      · exact Or.inr ⟨ns, List.mem_cons_self ns rest, Or.inr rfl⟩
      · rcases ih total (i + 1) c e hrest with h | ⟨m, hm, hom⟩
        · exact Or.inl h
        · exact Or.inr ⟨m, List.mem_cons_of_mem ns hm, hom⟩
    · split at he
      · rcases List.mem_cons.mp he with rfl | hrest
        · exact Or.inr ⟨ns, List.mem_cons_self ns rest, Or.inl rfl⟩
        · rcases ih total (i + 1) c e hrest with h | ⟨m, hm, hom⟩
          · exact Or.inl h
          · exact Or.inr ⟨m, List.mem_cons_of_mem ns hm, hom⟩
      · rcases List.mem_cons.mp he with rfl | hrest
        · exact Or.inr ⟨ns, List.mem_cons_self ns rest, Or.inl rfl⟩
        · rcases List.mem_append.mp hrest with hsleep | hnext
          · split at hsleep
            · rcases List.mem_singleton.mp hsleep with rfl
              exact Or.inl rfl
            · exact absurd hsleep (List.not_mem_nil e)
          · rcases ih total (i + 1) _ e hnext with h | ⟨m, hm, hom⟩
            · exact Or.inl h
            · exact Or.inr ⟨m, List.mem_cons_of_mem ns hm, hom⟩

theorem pruneReleases_ns_effect (opts : Options) (sys : String → Bool) (orc : Oracles)
    (now : Int) (c : Cluster) (ns : String)
    (h : Effect.deleteNamespace ns ∈ (pruneReleases opts sys orc now c).2 ∨
         Effect.wouldDeleteNamespace ns ∈ (pruneReleases opts sys orc now c).2) :
    sys ns = false := by
  have hmem : Effect.deleteNamespace ns ∈ (pruneReleases opts sys orc now c).2 ∨
      Effect.wouldDeleteNamespace ns ∈ (pruneReleases opts sys orc now c).2 := h
  simp only [pruneReleases] at hmem
  split at hmem
  · rcases hmem with hmem | hmem <;> exact absurd hmem (List.not_mem_nil _)
  · split at hmem
    · rcases hmem with hmem | hmem <;>
      · rcases deleteReleasesLoop_effect_shape opts orc _ _ _ _ _ hmem with
          ⟨n, m, heq⟩ | heq | ⟨n, m, heq⟩ <;> cases heq
    · rcases hmem with hmem | hmem <;>
        rcases List.mem_append.mp hmem with hloop | hpass
      · rcases deleteReleasesLoop_effect_shape opts orc _ _ _ _ _ hloop with
          ⟨n, m, heq⟩ | heq | ⟨n, m, heq⟩ <;> cases heq
      · rcases cleanupAffectedNamespaces_effect_shape opts sys orc _ _ _ hpass with
          ⟨m, hor, hsysm⟩
        rcases hor with heq | heq
        · cases heq; exact hsysm
        · cases heq
      · rcases deleteReleasesLoop_effect_shape opts orc _ _ _ _ _ hloop with
          ⟨n, m, heq⟩ | heq | ⟨n, m, heq⟩ <;> cases heq
      · rcases cleanupAffectedNamespaces_effect_shape opts sys orc _ _ _ hpass with
          ⟨m, hor, hsysm⟩
        rcases hor with heq | heq
        · cases heq
        · cases heq; exact hsysm

theorem cleanupOrphanNamespaces_ns_effect (opts : Options) (sys : String → Bool)
    (orc : Oracles) (c : Cluster) (ns : String)
    (h : Effect.deleteNamespace ns ∈ (cleanupOrphanNamespaces opts sys orc c).2 ∨
         Effect.wouldDeleteNamespace ns ∈ (cleanupOrphanNamespaces opts sys orc c).2) :
    sys ns = false := by
  simp only [cleanupOrphanNamespaces] at h
  split at h
  · rcases h with h | h <;> simp at h
  · have hcand : ns ∈ orphanCandidates opts sys orc c := by
      rcases h with h | h
      · rcases List.mem_cons.mp h with heq | hloop
        · cases heq
        · rcases deleteOrphansLoop_effect_shape opts orc _ _ _ _ _ hloop with
            heq | ⟨m, hm, hom⟩
          · cases heq
          · rcases hom with heq | heq
            · cases heq; exact hm
            · cases heq
      · rcases List.mem_cons.mp h with heq | hloop
        · cases heq
        · rcases deleteOrphansLoop_effect_shape opts orc _ _ _ _ _ hloop with
            heq | ⟨m, hm, hom⟩
          · cases heq
          · rcases hom with heq | heq
            · cases heq
            · cases heq; exact hm
    exact orphanCandidates_not_system opts sys orc c ns hcand

theorem pruneReleases_no_orphanScan (opts : Options) (sys : String → Bool)
    (orc : Oracles) (now : Int) (c : Cluster) :
    Effect.orphanScan ∉ (pruneReleases opts sys orc now c).2 := by
  intro hmem
  simp only [pruneReleases] at hmem
  split at hmem
  · exact absurd hmem (List.not_mem_nil _)
  · split at hmem
    · rcases deleteReleasesLoop_effect_shape opts orc _ _ _ _ _ hmem with
        ⟨n, m, heq⟩ | heq | ⟨n, m, heq⟩ <;> cases heq
    · rcases List.mem_append.mp hmem with hloop | hpass
      · rcases deleteReleasesLoop_effect_shape opts orc _ _ _ _ _ hloop with
          ⟨n, m, heq⟩ | heq | ⟨n, m, heq⟩ <;> cases heq
      · rcases cleanupAffectedNamespaces_effect_shape opts sys orc _ _ _ hpass with
          ⟨m, hor, _⟩
        rcases hor with heq | heq <;> cases heq

theorem runOnce_ns_effect (opts : Options) (sys : String → Bool) (orc : Oracles)
    (now : Int) (c : Cluster) (ns : String)
    (h : Effect.deleteNamespace ns ∈ (runOnce opts sys orc now c).2 ∨
         Effect.wouldDeleteNamespace ns ∈ (runOnce opts sys orc now c).2) :
    sys ns = false := by
  simp only [runOnce] at h
  rcases h with h | h
  · rcases List.mem_append.mp h with h1 | h2
    · split at h1
      · exact pruneReleases_ns_effect opts sys orc now c ns (Or.inl h1)
      · exact absurd h1 (List.not_mem_nil _)
    · split at h2
      · exact cleanupOrphanNamespaces_ns_effect opts sys orc _ ns (Or.inl h2)
      · exact absurd h2 (List.not_mem_nil _)
  · rcases List.mem_append.mp h with h1 | h2
    · split at h1
      · exact pruneReleases_ns_effect opts sys orc now c ns (Or.inr h1)
      · exact absurd h1 (List.not_mem_nil _)
    · split at h2
      · exact cleanupOrphanNamespaces_ns_effect opts sys orc _ ns (Or.inr h2)
      · exact absurd h2 (List.not_mem_nil _)

theorem runOnce_no_orphanScan (opts : Options) (sys : String → Bool) (orc : Oracles)
    (now : Int) (c : Cluster) (h : opts.cleanupOrphanNamespaces = false) :
    Effect.orphanScan ∉ (runOnce opts sys orc now c).2 := by
  intro hmem
  simp only [runOnce] at hmem
  rcases List.mem_append.mp hmem with h1 | h2
  · split at h1
    · exact pruneReleases_no_orphanScan opts sys orc now c h1
    · exact absurd h1 (List.not_mem_nil _)
  · split at h2
    · rename_i hcl
      rw [h] at hcl
      cases hcl
    · exact absurd h2 (List.not_mem_nil _)

/-! ## Dry-run lemmas -/

theorem deleteReleasesLoop_dryRun (opts : Options) (orc : Oracles)
    (hdry : opts.dryRun = true) :
    ∀ (items : List Release) (total i : Nat) (c : Cluster),
      (deleteReleasesLoop opts orc total i items c).1 = c ∧
      ∀ e ∈ (deleteReleasesLoop opts orc total i items c).2,
        ∃ n m, e = Effect.wouldDeleteRelease n m := by
  intro items
  induction items with
  | nil =>
    intro total i c
    exact ⟨rfl, by simp [deleteReleasesLoop]⟩
  | cons x rest ih =>
    intro total i c
    unfold deleteReleasesLoop
    rw [if_pos hdry]
    refine ⟨(ih total (i + 1) c).1, ?_⟩
    intro e he
    rcases List.mem_cons.mp he with rfl | hrest
    · exact ⟨x.name, x.nspace, rfl⟩
    · exact (ih total (i + 1) c).2 e hrest

theorem deleteNamespaceIfEmpty_dryRun (opts : Options) (sys : String → Bool)
    (orc : Oracles) (c : Cluster) (ns : String) (hdry : opts.dryRun = true) :
    (deleteNamespaceIfEmpty opts sys orc c ns).1 = c ∧
    ∀ e ∈ (deleteNamespaceIfEmpty opts sys orc c ns).2,
      e = Effect.wouldDeleteNamespace ns := by
  unfold deleteNamespaceIfEmpty
  split
  · exact ⟨rfl, by simp⟩
  · split
    · exact ⟨rfl, by simp⟩
    · split
      · exact ⟨rfl, by simp⟩
      · exact ⟨rfl, by simp⟩

theorem cleanupAffectedNamespaces_dryRun (opts : Options) (sys : String → Bool)
    (orc : Oracles) (hdry : opts.dryRun = true) :
    ∀ (L : List String) (c : Cluster),
      (cleanupAffectedNamespaces opts sys orc L c).1 = c ∧
      ∀ e ∈ (cleanupAffectedNamespaces opts sys orc L c).2,
        ∃ ns, e = Effect.wouldDeleteNamespace ns := by
  intro L
  induction L with
  | nil =>
    intro c
    exact ⟨rfl, by simp [cleanupAffectedNamespaces]⟩
  | cons ns rest ih =>
    intro c
    simp only [cleanupAffectedNamespaces]
    have hstep := deleteNamespaceIfEmpty_dryRun opts sys orc c ns hdry
    constructor
    · rw [hstep.1]
      exact (ih _).1
    · intro e he
      rcases List.mem_append.mp he with h1 | h2
      · exact ⟨ns, hstep.2 e h1⟩
      · rw [hstep.1] at h2
        exact (ih _).2 e h2

theorem deleteOrphansLoop_dryRun (opts : Options) (orc : Oracles)
    (hdry : opts.dryRun = true) :
    ∀ (items : List String) (total i : Nat) (c : Cluster),
      (deleteOrphansLoop opts orc total i items c).1 = c ∧
      ∀ e ∈ (deleteOrphansLoop opts orc total i items c).2,
        ∃ ns, e = Effect.wouldDeleteNamespace ns := by
  intro items
  induction items with
  | nil =>
    intro total i c
    exact ⟨rfl, by simp [deleteOrphansLoop]⟩
  | cons ns rest ih =>
    intro total i c
    unfold deleteOrphansLoop
    rw [if_pos hdry]
    refine ⟨(ih total (i + 1) c).1, ?_⟩
    intro e he
    rcases List.mem_cons.mp he with rfl | hrest
    · exact ⟨ns, rfl⟩
    · exact (ih total (i + 1) c).2 e hrest

theorem pruneReleases_dryRun (opts : Options) (sys : String → Bool) (orc : Oracles)
    (now : Int) (c : Cluster) (hdry : opts.dryRun = true) :
    (pruneReleases opts sys orc now c).1 = c ∧
    ∀ e ∈ (pruneReleases opts sys orc now c).2, e.isMutation = false := by
  simp only [pruneReleases]
  split
  · exact ⟨rfl, by simp⟩
  · have hloop := deleteReleasesLoop_dryRun opts orc hdry
      (selectReleasesToDelete opts now (filterReleases opts c.releases))
      (selectReleasesToDelete opts now (filterReleases opts c.releases)).length 0 c
    split
    · refine ⟨hloop.1, ?_⟩
      intro e he
      obtain ⟨n, m, rfl⟩ := hloop.2 e he
      rfl
    · have hpass := cleanupAffectedNamespaces_dryRun opts sys orc hdry
        ((selectReleasesToDelete opts now (filterReleases opts c.releases)).map
          (fun r => r.nspace)).dedup
        (deleteReleasesLoop opts orc
          (selectReleasesToDelete opts now (filterReleases opts c.releases)).length 0
          (selectReleasesToDelete opts now (filterReleases opts c.releases)) c).1
      constructor
      · rw [hpass.1, hloop.1]
      · intro e he
        rcases List.mem_append.mp he with h1 | h2
        · obtain ⟨n, m, rfl⟩ := hloop.2 e h1
          rfl
        · obtain ⟨ns, rfl⟩ := hpass.2 e h2
          rfl

theorem cleanupOrphanNamespaces_dryRun (opts : Options) (sys : String → Bool)
    (orc : Oracles) (c : Cluster) (hdry : opts.dryRun = true) :
    (cleanupOrphanNamespaces opts sys orc c).1 = c ∧
    ∀ e ∈ (cleanupOrphanNamespaces opts sys orc c).2, e.isMutation = false := by
  simp only [cleanupOrphanNamespaces]
  split
  · exact ⟨rfl, by simp [Effect.isMutation]⟩
  · have hloop := deleteOrphansLoop_dryRun opts orc hdry
      (orphanCandidates opts sys orc c) (orphanCandidates opts sys orc c).length 0 c
    refine ⟨hloop.1, ?_⟩
    intro e he
    rcases List.mem_cons.mp he with rfl | hrest
    · rfl
    · obtain ⟨ns, rfl⟩ := hloop.2 e hrest
      rfl

theorem runOnce_dryRun (opts : Options) (sys : String → Bool) (orc : Oracles)
    (now : Int) (c : Cluster) (hdry : opts.dryRun = true) :
    (runOnce opts sys orc now c).1 = c ∧
    ∀ e ∈ (runOnce opts sys orc now c).2, e.isMutation = false := by
  simp only [runOnce]
  have hp1 : (if hasReleasePruningFilters opts = true then pruneReleases opts sys orc now c
      else (c, [])).1 = c ∧
      ∀ e ∈ (if hasReleasePruningFilters opts = true then pruneReleases opts sys orc now c
        else (c, [])).2, e.isMutation = false := by
    split
    · exact pruneReleases_dryRun opts sys orc now c hdry
    · exact ⟨rfl, by simp⟩
  constructor
  · split
    · rw [(cleanupOrphanNamespaces_dryRun opts sys orc _ hdry).1, hp1.1]
    · exact hp1.1
  · intro e he
    rcases List.mem_append.mp he with h1 | h2
    · exact hp1.2 e h1
    · revert h2
      split
      · intro h2
        exact (cleanupOrphanNamespaces_dryRun opts sys orc _ hdry).2 e h2
      · intro h2
        exact absurd h2 (List.not_mem_nil _)

/-! ## Claim theorems: orphan safety, protected namespaces, dry-run -/

/-- C2: when no orphan-namespace include filter is configured, the
startup validation forcibly disables orphan cleanup even when it was
requested, and consequently the orphan scan never runs. -/
theorem claim_C2_orphan_cleanup_disabled (opts : Options)
    (h : opts.orphanNamespaceFilter = none) :
    (validateOrphanConfig opts).cleanupOrphanNamespaces = false ∧
    ∀ (sys : String → Bool) (orc : Oracles) (now : Int) (c : Cluster),
      Effect.orphanScan ∉ (runOnce (validateOrphanConfig opts) sys orc now c).2 := by
  have hoff : (validateOrphanConfig opts).cleanupOrphanNamespaces = false := by
    unfold validateOrphanConfig
    by_cases hc : opts.cleanupOrphanNamespaces = true
    · rw [if_pos ⟨hc, by simp [h]⟩]
    · rw [if_neg (by intro hand; exact hc hand.1)]
      simpa using hc
  exact ⟨hoff, fun sys orc now c => runOnce_no_orphanScan _ sys orc now c hoff⟩

/-- C2 witness: orphan cleanup requested with no filter, on a cluster
with one non-system namespace: after validation the orphan scan does not
run. -/
theorem claim_C2_orphan_cleanup_disabled_witness :
    (validateOrphanConfig { cleanupOrphanNamespaces := true }).cleanupOrphanNamespaces
      = false ∧
    Effect.orphanScan ∉ (runOnce (validateOrphanConfig { cleanupOrphanNamespaces := true })
        (mkSystemNamespaces []) noFailures 0
        { namespaces := ["team-sandbox"], releases := [] }).2 :=
  ⟨(claim_C2_orphan_cleanup_disabled { cleanupOrphanNamespaces := true } rfl).1,
   (claim_C2_orphan_cleanup_disabled { cleanupOrphanNamespaces := true } rfl).2
     (mkSystemNamespaces []) noFailures 0 { namespaces := ["team-sandbox"], releases := [] }⟩

/-- C3: a namespace in the default protected set or in the configured
additional set is never the target of a namespace-delete call (or even a
dry-run delete intent), by either the post-deletion empty-namespace check
or the orphan scan, in any cycle, regardless of filters. -/
theorem claim_C3_protected_namespaces (opts : Options) (additional : List String)
    (orc : Oracles) (now : Int) (c : Cluster) (ns : String)
    (h : ns ∈ defaultSystemNamespaces ∨ ns ∈ additional) :
    Effect.deleteNamespace ns ∉
      (runOnce opts (mkSystemNamespaces additional) orc now c).2 ∧
    Effect.wouldDeleteNamespace ns ∉
      (runOnce opts (mkSystemNamespaces additional) orc now c).2 := by
  have hsys : mkSystemNamespaces additional ns = true :=
    (mkSystemNamespaces_eq_true additional ns).mpr h
  constructor
  · intro hmem
    have hf := runOnce_ns_effect opts (mkSystemNamespaces additional) orc now c ns
      (Or.inl hmem)
    rw [hsys] at hf
    cases hf
  · intro hmem
    have hf := runOnce_ns_effect opts (mkSystemNamespaces additional) orc now c ns
      (Or.inr hmem)
    rw [hsys] at hf
    cases hf

/-- C3 witness: `kube-system` (a default) and `monitoring` (configured)
survive a cycle that deletes every release of a stale cluster. -/
theorem claim_C3_protected_namespaces_witness :
    (Effect.deleteNamespace "kube-system" ∉
      (runOnce { olderThan := 1, cleanupOrphanNamespaces := true,
                 orphanNamespaceFilter := some (fun _ => true) }
        (mkSystemNamespaces ["monitoring"]) noFailures 100
        { namespaces := ["kube-system", "monitoring", "feature-x"],
          releases := [⟨"app", "kube-system", 0⟩] }).2 ∧
     Effect.wouldDeleteNamespace "kube-system" ∉
      (runOnce { olderThan := 1, cleanupOrphanNamespaces := true,
                 orphanNamespaceFilter := some (fun _ => true) }
        (mkSystemNamespaces ["monitoring"]) noFailures 100
        { namespaces := ["kube-system", "monitoring", "feature-x"],
          releases := [⟨"app", "kube-system", 0⟩] }).2) ∧
    (Effect.deleteNamespace "monitoring" ∉
      (runOnce { olderThan := 1, cleanupOrphanNamespaces := true,
                 orphanNamespaceFilter := some (fun _ => true) }
        (mkSystemNamespaces ["monitoring"]) noFailures 100
        { namespaces := ["kube-system", "monitoring", "feature-x"],
          releases := [⟨"app", "kube-system", 0⟩] }).2 ∧
     Effect.wouldDeleteNamespace "monitoring" ∉
      (runOnce { olderThan := 1, cleanupOrphanNamespaces := true,
                 orphanNamespaceFilter := some (fun _ => true) }
        (mkSystemNamespaces ["monitoring"]) noFailures 100
        { namespaces := ["kube-system", "monitoring", "feature-x"],
          releases := [⟨"app", "kube-system", 0⟩] }).2) :=
  ⟨claim_C3_protected_namespaces _ ["monitoring"] noFailures 100 _ "kube-system"
      (Or.inl (by decide)),
   claim_C3_protected_namespaces _ ["monitoring"] noFailures 100 _ "monitoring"
      (Or.inr (by decide))⟩

/-! ## Rate-limit counting lemmas -/

theorem deleteReleasesLoop_countUninstalls (opts : Options) (orc : Oracles)
    (hdry : opts.dryRun = false) :
    ∀ (items : List Release) (total i : Nat) (c : Cluster),
      countUninstalls (deleteReleasesLoop opts orc total i items c).2 = items.length := by
  intro items
  induction items with
  | nil =>
    intro total i c
    simp [deleteReleasesLoop, countUninstalls]
  | cons x rest ih =>
    intro total i c
    unfold deleteReleasesLoop
    rw [if_neg (by simp [hdry])]
    split
    · simp only [countUninstalls, List.countP_cons] at ih ⊢
      simp [ih total (i + 1) c]
    · simp only [countUninstalls, List.countP_cons, List.countP_append] at ih ⊢
      rw [ih total (i + 1) (removeRelease c x.name x.nspace)]
      split <;> simp [List.countP_cons]

theorem deleteReleasesLoop_countSleeps_le (opts : Options) (orc : Oracles)
    (hdry : opts.dryRun = false) :
    ∀ (items : List Release) (total i : Nat) (c : Cluster),
      i + items.length = total →
      countSleeps (deleteReleasesLoop opts orc total i items c).2 ≤ items.length - 1 := by
  intro items
  induction items with
  | nil =>
    intro total i c _
    simp [deleteReleasesLoop, countSleeps]
  | cons x rest ih =>
    intro total i c htot
    unfold deleteReleasesLoop
    rw [if_neg (by simp [hdry])]
    split
    · have hrec := ih total (i + 1) c (by simp only [List.length_cons, List.length_nil] at htot ⊢; omega)
      simp only [countSleeps, List.countP_cons] at hrec ⊢
      simp only [List.length_cons, Bool.false_eq_true, if_false]
      omega
    · cases rest with
      | nil =>
        rw [if_neg (by simp only [List.length_cons, List.length_nil] at htot; rintro ⟨_, hi⟩; omega)]
        have hrec := ih total (i + 1) (removeRelease c x.name x.nspace)
          (by simp only [List.length_cons, List.length_nil] at htot ⊢; omega)
        simp only [countSleeps, List.countP_cons, List.countP_append] at hrec ⊢
        simpa [deleteReleasesLoop, List.countP_nil] using le_trans (by simp) hrec
      | cons y ys =>
        have hrec := ih total (i + 1) (removeRelease c x.name x.nspace)
          (by simp only [List.length_cons, List.length_nil] at htot ⊢; omega)
        simp only [countSleeps, List.countP_cons, List.countP_append,
          List.length_cons, Bool.false_eq_true, if_false] at hrec ⊢
        have hsl : (if 0 < opts.deleteRateLimit ∧ i < total - 1
            then [Effect.rateLimitSleep] else []).countP
              (fun e => match e with | .rateLimitSleep => true | _ => false) ≤ 1 := by
          split <;> simp
        omega

theorem deleteReleasesLoop_countSleeps_exact (opts : Options) (orc : Oracles)
    (hdry : opts.dryRun = false) (hrl : 0 < opts.deleteRateLimit) :
    ∀ (items : List Release) (total i : Nat) (c : Cluster),
      i + items.length = total →
      (∀ r ∈ items, orc.relDeleteFails r.name r.nspace = false) →
      countSleeps (deleteReleasesLoop opts orc total i items c).2 = items.length - 1 := by
  intro items
  induction items with
  | nil =>
    intro total i c _ _
    simp [deleteReleasesLoop, countSleeps]
  | cons x rest ih =>
    intro total i c htot hok
    unfold deleteReleasesLoop
    rw [if_neg (by simp [hdry]),
      if_neg (by simp [hok x (List.mem_cons_self x rest)])]
    cases rest with
    | nil =>
      rw [if_neg (by simp only [List.length_cons, List.length_nil] at htot; rintro ⟨_, hi⟩; omega)]
      have hrec := ih total (i + 1) (removeRelease c x.name x.nspace)
        (by simp only [List.length_cons, List.length_nil] at htot ⊢; omega) (by intro r hr; cases hr)
      simp only [countSleeps, List.countP_cons, List.countP_append, List.countP_nil,
        List.nil_append, Bool.false_eq_true, if_false, List.length_cons,
        List.length_nil] at hrec ⊢
      omega
    | cons y ys =>
      rw [if_pos ⟨hrl, by simp only [List.length_cons] at htot; omega⟩]
      have hrec := ih total (i + 1) (removeRelease c x.name x.nspace)
        (by simp only [List.length_cons, List.length_nil] at htot ⊢; omega)
        (fun r hr => hok r (List.mem_cons_of_mem x hr))
      simp only [countSleeps, List.countP_cons, List.countP_append, List.countP_nil,
        List.length_cons, List.length_nil, Bool.false_eq_true, if_false,
        if_true] at hrec ⊢
      omega

theorem deleteReleasesLoop_trace_ends_uninstall (opts : Options) (orc : Oracles)
    (hdry : opts.dryRun = false) :
    ∀ (items : List Release) (total i : Nat) (c : Cluster),
      i + items.length = total → items ≠ [] →
      ∃ tr n m, (deleteReleasesLoop opts orc total i items c).2 =
        tr ++ [Effect.uninstallRelease n m] := by
  intro items
  induction items with
  | nil =>
    intro total i c _ hne
    exact absurd rfl hne
  | cons x rest ih =>
    intro total i c htot _
    unfold deleteReleasesLoop
    rw [if_neg (by simp [hdry])]
    cases rest with
    | nil =>
      split
      · exact ⟨[], x.name, x.nspace, rfl⟩
      · rw [if_neg (by simp only [List.length_cons, List.length_nil] at htot; rintro ⟨_, hi⟩; omega)]
        exact ⟨[], x.name, x.nspace, by simp [deleteReleasesLoop]⟩
    | cons y ys =>
      split
      · obtain ⟨tr, n, m, htr⟩ := ih total (i + 1) c
          (by simp only [List.length_cons, List.length_nil] at htot ⊢; omega) (by simp)
        exact ⟨Effect.uninstallRelease x.name x.nspace :: tr, n, m, by
          simp only [htr, List.cons_append]⟩
      · obtain ⟨tr, n, m, htr⟩ := ih total (i + 1) (removeRelease c x.name x.nspace)
          (by simp only [List.length_cons, List.length_nil] at htot ⊢; omega) (by simp)
        refine ⟨Effect.uninstallRelease x.name x.nspace ::
          ((if 0 < opts.deleteRateLimit ∧ i < total - 1
            then [Effect.rateLimitSleep] else []) ++ tr), n, m, ?_⟩
        simp only [htr, List.cons_append, List.append_assoc]

theorem deleteOrphansLoop_countNsDeletes (opts : Options) (orc : Oracles)
    (hdry : opts.dryRun = false) :
    ∀ (items : List String) (total i : Nat) (c : Cluster),
      countNsDeletes (deleteOrphansLoop opts orc total i items c).2 = items.length := by
  intro items
  induction items with
  | nil =>
    intro total i c
    simp [deleteOrphansLoop, countNsDeletes]
  | cons x rest ih =>
    intro total i c
    unfold deleteOrphansLoop
    rw [if_neg (by simp [hdry])]
    split
    · simp only [countNsDeletes, List.countP_cons] at ih ⊢
      simp [ih total (i + 1) c]
    · simp only [countNsDeletes, List.countP_cons, List.countP_append] at ih ⊢
      rw [ih total (i + 1) (removeNamespace c x)]
      split <;> simp [List.countP_cons]

theorem deleteOrphansLoop_countSleeps_le (opts : Options) (orc : Oracles)
    (hdry : opts.dryRun = false) :
    ∀ (items : List String) (total i : Nat) (c : Cluster),
      i + items.length = total →
      countSleeps (deleteOrphansLoop opts orc total i items c).2 ≤ items.length - 1 := by
  intro items
  induction items with
  | nil =>
    intro total i c _
    simp [deleteOrphansLoop, countSleeps]
  | cons x rest ih =>
    intro total i c htot
    unfold deleteOrphansLoop
    rw [if_neg (by simp [hdry])]
    split
    · have hrec := ih total (i + 1) c (by simp only [List.length_cons, List.length_nil] at htot ⊢; omega)
      simp only [countSleeps, List.countP_cons] at hrec ⊢
      simp only [List.length_cons, Bool.false_eq_true, if_false]
      omega
    · cases rest with
      | nil =>
        rw [if_neg (by simp only [List.length_cons, List.length_nil] at htot; rintro ⟨_, hi⟩; omega)]
        have hrec := ih total (i + 1) (removeNamespace c x)
          (by simp only [List.length_cons, List.length_nil] at htot ⊢; omega)
        simp only [countSleeps, List.countP_cons, List.countP_append] at hrec ⊢
        simpa [deleteOrphansLoop, List.countP_nil] using le_trans (by simp) hrec
      | cons y ys =>
        have hrec := ih total (i + 1) (removeNamespace c x)
          (by simp only [List.length_cons, List.length_nil] at htot ⊢; omega)
        simp only [countSleeps, List.countP_cons, List.countP_append,
          List.length_cons, Bool.false_eq_true, if_false] at hrec ⊢
        have hsl : (if 0 < opts.deleteRateLimit ∧ i < total - 1
            then [Effect.rateLimitSleep] else []).countP
              (fun e => match e with | .rateLimitSleep => true | _ => false) ≤ 1 := by
          split <;> simp
        omega

theorem deleteOrphansLoop_countSleeps_exact (opts : Options) (orc : Oracles)
    (hdry : opts.dryRun = false) (hrl : 0 < opts.deleteRateLimit) :
    ∀ (items : List String) (total i : Nat) (c : Cluster),
      i + items.length = total →
      (∀ ns ∈ items, orc.nsDeleteFails ns = false) →
      countSleeps (deleteOrphansLoop opts orc total i items c).2 = items.length - 1 := by
  intro items
  induction items with
  | nil =>
    intro total i c _ _
    simp [deleteOrphansLoop, countSleeps]
  | cons x rest ih =>
    intro total i c htot hok
    unfold deleteOrphansLoop
    rw [if_neg (by simp [hdry]),
      if_neg (by simp [hok x (List.mem_cons_self x rest)])]
    cases rest with
    | nil =>
      rw [if_neg (by simp only [List.length_cons, List.length_nil] at htot; rintro ⟨_, hi⟩; omega)]
      have hrec := ih total (i + 1) (removeNamespace c x)
        (by simp only [List.length_cons, List.length_nil] at htot ⊢; omega) (by intro r hr; cases hr)
      simp only [countSleeps, List.countP_cons, List.countP_append, List.countP_nil,
        List.nil_append, Bool.false_eq_true, if_false, List.length_cons,
        List.length_nil] at hrec ⊢
      omega
    | cons y ys =>
      rw [if_pos ⟨hrl, by simp only [List.length_cons] at htot; omega⟩]
      have hrec := ih total (i + 1) (removeNamespace c x)
        (by simp only [List.length_cons, List.length_nil] at htot ⊢; omega)
        (fun r hr => hok r (List.mem_cons_of_mem x hr))
      simp only [countSleeps, List.countP_cons, List.countP_append, List.countP_nil,
        List.length_cons, List.length_nil, Bool.false_eq_true, if_false,
        if_true] at hrec ⊢
      omega

theorem deleteOrphansLoop_trace_ends_delete (opts : Options) (orc : Oracles)
    (hdry : opts.dryRun = false) :
    ∀ (items : List String) (total i : Nat) (c : Cluster),
      i + items.length = total → items ≠ [] →
      ∃ tr ns, (deleteOrphansLoop opts orc total i items c).2 =
        tr ++ [Effect.deleteNamespace ns] := by
  intro items
  induction items with
  | nil =>
    intro total i c _ hne
    exact absurd rfl hne
  | cons x rest ih =>
    intro total i c htot _
    unfold deleteOrphansLoop
    rw [if_neg (by simp [hdry])]
    cases rest with
    | nil =>
      split
      · exact ⟨[], x, rfl⟩
      · rw [if_neg (by simp only [List.length_cons, List.length_nil] at htot; rintro ⟨_, hi⟩; omega)]
        exact ⟨[], x, by simp [deleteOrphansLoop]⟩
    | cons y ys =>
      split
      · obtain ⟨tr, n, htr⟩ := ih total (i + 1) c
          (by simp only [List.length_cons, List.length_nil] at htot ⊢; omega) (by simp)
        exact ⟨Effect.deleteNamespace x :: tr, n, by
          simp only [htr, List.cons_append]⟩
      · obtain ⟨tr, n, htr⟩ := ih total (i + 1) (removeNamespace c x)
          (by simp only [List.length_cons, List.length_nil] at htot ⊢; omega) (by simp)
        refine ⟨Effect.deleteNamespace x ::
          ((if 0 < opts.deleteRateLimit ∧ i < total - 1
            then [Effect.rateLimitSleep] else []) ++ tr), n, ?_⟩
        simp only [htr, List.cons_append, List.append_assoc]

/-! ## Claim theorems: dry-run and rate limiting -/

/-- C8 counterexample: the claim as stated is false.  On a cluster whose
only namespace `ns1` holds one stale release, a live run deletes the
release and then deletes the now-empty namespace, while a dry run leaves
the release in place, so the empty-namespace check still sees it and
reports no namespace at all: the selected-namespace sets differ. -/
theorem claim_C8_counterexample :
    nsSelected (runOnce { olderThan := 1 } (mkSystemNamespaces []) noFailures 10
        { namespaces := ["ns1"], releases := [⟨"r", "ns1", 0⟩] }).2 ≠
    nsSelected (runOnce { olderThan := 1, dryRun := true } (mkSystemNamespaces [])
        noFailures 10 { namespaces := ["ns1"], releases := [⟨"r", "ns1", 0⟩] }).2 := by
  decide

/-- C8 (amended): dry-run computes the same set of releases selected for
deletion as a live run, issues zero release-uninstall and zero
namespace-delete calls, and leaves the cluster unchanged.  The namespaces
reported by the post-deletion empty-namespace check can however differ
from a live run, because dry-run does not remove the releases first, so a
namespace whose releases would all have been deleted still appears
non-empty. -/
theorem claim_C8_dry_run_no_mutation (opts : Options) (sys : String → Bool)
    (orc : Oracles) (now : Int) (c : Cluster) :
    (∀ b : Bool,
      selectReleasesToDelete { opts with dryRun := b } now
          (filterReleases { opts with dryRun := b } c.releases) =
        selectReleasesToDelete opts now (filterReleases opts c.releases)) ∧
    (runOnce { opts with dryRun := true } sys orc now c).1 = c ∧
    (∀ e ∈ (runOnce { opts with dryRun := true } sys orc now c).2,
      e.isMutation = false) := by
  refine ⟨fun b => rfl, ?_, ?_⟩
  · exact (runOnce_dryRun { opts with dryRun := true } sys orc now c rfl).1
  · exact (runOnce_dryRun { opts with dryRun := true } sys orc now c rfl).2

/-- C8 witness: the amended claim on the counterexample's cluster: the
dry run leaves the cluster untouched and its would-delete intent is not a
mutation. -/
theorem claim_C8_dry_run_no_mutation_witness :
    (runOnce { ({ olderThan := 1 } : Options) with dryRun := true } (mkSystemNamespaces [])
        noFailures 10 { namespaces := ["ns1"], releases := [⟨"r", "ns1", 0⟩] }).1 =
      { namespaces := ["ns1"], releases := [⟨"r", "ns1", 0⟩] } ∧
    Effect.isMutation (Effect.wouldDeleteRelease "r" "ns1") = false :=
  ⟨(claim_C8_dry_run_no_mutation { olderThan := 1 } (mkSystemNamespaces []) noFailures 10
      { namespaces := ["ns1"], releases := [⟨"r", "ns1", 0⟩] }).2.1,
   (claim_C8_dry_run_no_mutation { olderThan := 1 } (mkSystemNamespaces []) noFailures 10
      { namespaces := ["ns1"], releases := [⟨"r", "ns1", 0⟩] }).2.2
     (Effect.wouldDeleteRelease "r" "ns1") (by decide)⟩

/-- C9: in a non-dry-run cycle with a positive rate limit and a non-empty
deletion list, both deletion loops issue one deletion attempt per item,
sleep at most one time fewer than they attempt deletions (exactly one
fewer when every deletion succeeds), and their traces end with a deletion
call — never with a sleep, so no delay follows the last deletion. -/
theorem claim_C9_rate_limit_between (opts : Options) (orc : Oracles) (c c' : Cluster)
    (toDelete : List Release) (orphans : List String)
    (hdry : opts.dryRun = false) (hrl : 0 < opts.deleteRateLimit)
    (hrel : toDelete ≠ []) (horph : orphans ≠ []) :
    (countUninstalls (deleteReleasesLoop opts orc toDelete.length 0 toDelete c).2 =
        toDelete.length ∧
      countSleeps (deleteReleasesLoop opts orc toDelete.length 0 toDelete c).2 ≤
        toDelete.length - 1 ∧
      (∃ tr n m, (deleteReleasesLoop opts orc toDelete.length 0 toDelete c).2 =
        tr ++ [Effect.uninstallRelease n m]) ∧
      ((∀ r ∈ toDelete, orc.relDeleteFails r.name r.nspace = false) →
        countSleeps (deleteReleasesLoop opts orc toDelete.length 0 toDelete c).2 =
          toDelete.length - 1)) ∧
    (countNsDeletes (deleteOrphansLoop opts orc orphans.length 0 orphans c').2 =
        orphans.length ∧
      countSleeps (deleteOrphansLoop opts orc orphans.length 0 orphans c').2 ≤
        orphans.length - 1 ∧
      (∃ tr ns, (deleteOrphansLoop opts orc orphans.length 0 orphans c').2 =
        tr ++ [Effect.deleteNamespace ns]) ∧
      ((∀ ns ∈ orphans, orc.nsDeleteFails ns = false) →
        countSleeps (deleteOrphansLoop opts orc orphans.length 0 orphans c').2 =
          orphans.length - 1)) := by
  refine ⟨⟨?_, ?_, ?_, ?_⟩, ?_, ?_, ?_, ?_⟩
  · exact deleteReleasesLoop_countUninstalls opts orc hdry toDelete toDelete.length 0 c
  · exact deleteReleasesLoop_countSleeps_le opts orc hdry toDelete toDelete.length 0 c
      (by omega)
  · exact deleteReleasesLoop_trace_ends_uninstall opts orc hdry toDelete
      toDelete.length 0 c (by omega) hrel
  · intro hok
    exact deleteReleasesLoop_countSleeps_exact opts orc hdry hrl toDelete
      toDelete.length 0 c (by omega) hok
  · exact deleteOrphansLoop_countNsDeletes opts orc hdry orphans orphans.length 0 c'
  · exact deleteOrphansLoop_countSleeps_le opts orc hdry orphans orphans.length 0 c'
      (by omega)
  · exact deleteOrphansLoop_trace_ends_delete opts orc hdry orphans
      orphans.length 0 c' (by omega) horph
  · intro hok
    exact deleteOrphansLoop_countSleeps_exact opts orc hdry hrl orphans
      orphans.length 0 c' (by omega) hok

/-- C9 witness: two releases and two orphan namespaces under a 1ns rate
limit with no failures: two attempts and one sleep in each loop, each
trace ending with a deletion call. -/
theorem claim_C9_rate_limit_between_witness :
    countUninstalls (deleteReleasesLoop { deleteRateLimit := 1 } noFailures
        ([⟨"a", "n1", 0⟩, ⟨"b", "n2", 0⟩] : List Release).length 0
        [⟨"a", "n1", 0⟩, ⟨"b", "n2", 0⟩]
        { namespaces := ["n1", "n2"], releases := [⟨"a", "n1", 0⟩, ⟨"b", "n2", 0⟩] }).2 =
      2 ∧
    countSleeps (deleteReleasesLoop { deleteRateLimit := 1 } noFailures
        ([⟨"a", "n1", 0⟩, ⟨"b", "n2", 0⟩] : List Release).length 0
        [⟨"a", "n1", 0⟩, ⟨"b", "n2", 0⟩]
        { namespaces := ["n1", "n2"], releases := [⟨"a", "n1", 0⟩, ⟨"b", "n2", 0⟩] }).2 =
      1 ∧
    countNsDeletes (deleteOrphansLoop { deleteRateLimit := 1 } noFailures
        (["o1", "o2"] : List String).length 0 ["o1", "o2"]
        { namespaces := ["o1", "o2"], releases := [] }).2 = 2 := by
  have h := claim_C9_rate_limit_between { deleteRateLimit := 1 } noFailures
    { namespaces := ["n1", "n2"], releases := [⟨"a", "n1", 0⟩, ⟨"b", "n2", 0⟩] }
    { namespaces := ["o1", "o2"], releases := [] }
    [⟨"a", "n1", 0⟩, ⟨"b", "n2", 0⟩] ["o1", "o2"]
    rfl (by decide) (by decide) (by decide)
  refine ⟨h.1.1, ?_, h.2.1⟩
  have hx := h.1.2.2.2 (by intro r hr; rfl)
  simpa using hx

end HelmPruner
